import Mathlib

/-!
Shallow embedding of the Digital Circular Passport server (src/main.py).

The persistent store is modelled as an explicit record of three tables
(users, activities, completions) plus the SERIAL counters for the two
generated id columns.  Each route handler that touches the store becomes a
pure Lean function from a store state (and the request data resolved from
the session) to a response value and a new store state.  Timestamps are the
ISO strings produced by datetime.utcnow().isoformat(), kept abstract as
`String` parameters; SQL `ORDER BY` on the TEXT column compares these
strings lexicographically, which is the `String` linear order used here.

Character-level caveats: the `\d` of Python re on str matches every
Unicode decimal digit (general category Nd), modelled below by the Nd
range table of Unicode 15.0 (the table shipped with CPython 3.12);
`str.lower` also lowercases non-ASCII letters, while the model maps the
ASCII range only — no theorem depends on the lowercasing of a particular
non-ASCII character, every use being parametric in the normalized string.
-/

/-- str.strip() from register and scan_api: drop leading and trailing
whitespace.  Written with the structural List.dropWhile (rather than the
Substring-based String.trim of the Lean core, which the kernel cannot
evaluate) so every concrete instance below computes. -/
def pyStrip (s : String) : String :=
  ⟨((s.data.dropWhile Char.isWhitespace).reverse.dropWhile Char.isWhitespace).reverse⟩

/-- str.lower() on one character, for the ASCII range (see the caveat
above): map A..Z to a..z and keep every other character. -/
def lowerChar (c : Char) : Char :=
  if 'A' ≤ c ∧ c ≤ 'Z' then Char.ofNat (c.toNat + 32) else c

/-- str.lower() from register, characterwise. -/
def pyLower (s : String) : String := ⟨s.data.map lowerChar⟩

/-- Row of the `users` table (id SERIAL, name, email UNIQUE, created_at). -/
structure UserRow where
  id : Nat
  name : String
  email : String
  created_at : String
deriving DecidableEq, Repr

/-- Row of the `activities` table (code PRIMARY KEY, title). -/
structure ActivityRow where
  code : String
  title : String
deriving DecidableEq, Repr

/-- Row of the `completions` table (id SERIAL, user_id, activity_code,
created_at), with UNIQUE(user_id, activity_code). -/
structure CompletionRow where
  id : Nat
  user_id : Nat
  activity_code : String
  created_at : String
deriving DecidableEq, Repr

/-- The whole persistent store, with the next values of the two SERIAL
id sequences. -/
structure DB where
  users : List UserRow
  activities : List ActivityRow
  completions : List CompletionRow
  nextUserId : Nat
  nextCompletionId : Nat
deriving DecidableEq, Repr

/-- A store with empty tables, as created by the DDL in init_db on a fresh
database (SERIAL sequences start at 1). -/
def emptyDB : DB := ⟨[], [], [], 1, 1⟩

/-- TOTAL_ACTIVITIES = 50 in main.py. -/
def TOTAL_ACTIVITIES : Nat := 50

/-- str(i).zfill(2): pad the decimal representation on the left with zeros
to width 2. -/
def zfill2 (i : Nat) : String :=
  let s := toString i
  if s.length < 2 then "0" ++ s else s

/-- The seeded code for activity number i: f-string "CF26-A" + str(i).zfill(2)
from init_db. -/
def codeOf (i : Nat) : String := "CF26-A" ++ zfill2 i

/-- Whether the activities table already has a row with this code (the
ON CONFLICT (code) DO NOTHING test). -/
def hasCode (db : DB) (c : String) : Bool :=
  db.activities.any (fun a => a.code == c)

/-- One iteration of the seeding loop in init_db: INSERT the activity row
for number i ON CONFLICT (code) DO NOTHING. -/
def seedOne (db : DB) (i : Nat) : DB :=
  if hasCode db (codeOf i) then db
  else { db with activities := db.activities ++ [⟨codeOf i, "Activity " ++ toString i⟩] }

/-- init_db from main.py: create the tables if missing (the record already
has them) and run the seeding loop for i in range(1, TOTAL_ACTIVITIES + 1).
Every statement is total: the function models the absence of errors. -/
def init_db (db : DB) : DB :=
  (List.range' 1 TOTAL_ACTIVITIES).foldl seedOne db

/-- The codepoint ranges of Unicode general category Nd (decimal digit),
Unicode 15.0 — the 680 characters matched by the unicode-aware \d of the
Python re module on str patterns: 63 runs of ten digits plus the fifty
mathematical digits at 1D7CE. -/
def ndRanges : List (Nat × Nat) :=
  [(0x30, 0x39), (0x660, 0x669), (0x6F0, 0x6F9), (0x7C0, 0x7C9),
   (0x966, 0x96F), (0x9E6, 0x9EF), (0xA66, 0xA6F), (0xAE6, 0xAEF),
   (0xB66, 0xB6F), (0xBE6, 0xBEF), (0xC66, 0xC6F), (0xCE6, 0xCEF),
   (0xD66, 0xD6F), (0xDE6, 0xDEF), (0xE50, 0xE59), (0xED0, 0xED9),
   (0xF20, 0xF29), (0x1040, 0x1049), (0x1090, 0x1099), (0x17E0, 0x17E9),
   (0x1810, 0x1819), (0x1946, 0x194F), (0x19D0, 0x19D9), (0x1A80, 0x1A89),
   (0x1A90, 0x1A99), (0x1B50, 0x1B59), (0x1BB0, 0x1BB9), (0x1C40, 0x1C49),
   (0x1C50, 0x1C59), (0xA620, 0xA629), (0xA8D0, 0xA8D9), (0xA900, 0xA909),
   (0xA9D0, 0xA9D9), (0xA9F0, 0xA9F9), (0xAA50, 0xAA59), (0xABF0, 0xABF9),
   (0xFF10, 0xFF19), (0x104A0, 0x104A9), (0x10D30, 0x10D39),
   (0x11066, 0x1106F), (0x110F0, 0x110F9), (0x11136, 0x1113F),
   (0x111D0, 0x111D9), (0x112F0, 0x112F9), (0x11450, 0x11459),
   (0x114D0, 0x114D9), (0x11650, 0x11659), (0x116C0, 0x116C9),
   (0x11730, 0x11739), (0x118E0, 0x118E9), (0x11950, 0x11959),
   (0x11C50, 0x11C59), (0x11D50, 0x11D59), (0x11DA0, 0x11DA9),
   (0x11F50, 0x11F59), (0x16A60, 0x16A69), (0x16AC0, 0x16AC9),
   (0x16B50, 0x16B59), (0x1D7CE, 0x1D7FF), (0x1E140, 0x1E149),
   (0x1E2F0, 0x1E2F9), (0x1E4F0, 0x1E4F9), (0x1E950, 0x1E959),
   (0x1FBF0, 0x1FBF9)]

/-- Whether a character is matched by \d of the Python re module on a str
pattern: any Unicode decimal digit, i.e. any codepoint of category Nd. -/
def isDigitNd (c : Char) : Bool :=
  ndRanges.any (fun r => r.1 ≤ c.toNat && c.toNat ≤ r.2)

/-- re.match of the raw pattern A\d{2}$ against the suffix: anchored at the
start, \d is the Unicode decimal digit class, and the dollar accepts either
the end of the string or a position just before a single final newline
(Python dollar semantics; \Z would not). -/
def reMatchA2 : List Char → Bool
  | a :: d1 :: d2 :: rest =>
      a == 'A' && isDigitNd d1 && isDigitNd d2 && (rest == [] || rest == ['\n'])
  | _ => false

/-- valid_qr from main.py: code.startswith("CF26-") and then
re.match(r"A\d{2}$", code[5:]). -/
def valid_qr (code : String) : Bool :=
  match code.data with
  | c1 :: c2 :: c3 :: c4 :: c5 :: suffix =>
      c1 == 'C' && c2 == 'F' && c3 == '2' && c4 == '6' && c5 == '-' && reMatchA2 suffix
  | _ => false

/-- The format stated by the specification for C2, written from its words:
exactly the prefix CF26- followed by the letter A and exactly two ASCII
decimal digits, nothing before or after. -/
def qrSpecFormat (s : String) : Bool :=
  match s.data with
  | [c1, c2, c3, c4, c5, a, d1, d2] =>
      c1 == 'C' && c2 == 'F' && c3 == '2' && c4 == '6' && c5 == '-' && a == 'A' &&
        d1.isDigit && d2.isDigit
  | _ => false

/-- SELECT COUNT(*) FROM completions WHERE user_id = uid. -/
def countFor (db : DB) (uid : Nat) : Nat :=
  (db.completions.filter (fun c => c.user_id == uid)).length

/-- POST /register (main.py register): normalize email with strip().lower()
and name with strip(); reuse the existing user row with that email when
there is one, otherwise INSERT ... RETURNING id.  Returns the user id that
is written into the session, with the new store state. -/
def register (db : DB) (name email now : String) : Nat × DB :=
  let e := pyLower (pyStrip email)
  let n := pyStrip name
  match db.users.find? (fun u => u.email == e) with
  | some row => (row.id, db)
  | none =>
      (db.nextUserId,
        { db with
            users := db.users ++ [⟨db.nextUserId, n, e, now⟩],
            nextUserId := db.nextUserId + 1 })

/-- JSON body and HTTP status of a POST /api/scan response.  Fields absent
from the body are `none`. -/
structure ApiResp where
  status : Nat
  ok : Bool
  error : Option String
  added : Option Bool
  count : Option Nat
  total : Option Nat
deriving DecidableEq, Repr

/-- POST /api/scan (main.py scan_api) for an authenticated user id: strip
the submitted code, reject malformed codes with 400, codes of no seeded
activity with 404, then INSERT the completion ON CONFLICT (user_id,
activity_code) DO NOTHING RETURNING id — `added` is whether a row came
back, i.e. whether no row with that (user_id, activity_code) pair existed —
and finally re-count the user rows in completions.  `now` stands for
datetime.utcnow().isoformat() at the insert. -/
def scan_api (db : DB) (user_id : Nat) (rawCode now : String) : ApiResp × DB :=
  let code := pyStrip rawCode
  if !valid_qr code then
    (⟨400, false, some "Invalid QR", none, none, none⟩, db)
  else if !(db.activities.any (fun a => a.code == code)) then
    (⟨404, false, some "Unknown activity", none, none, none⟩, db)
  else
    let dup := db.completions.any (fun c => c.user_id == user_id && c.activity_code == code)
    let db' :=
      if dup then db
      else
        { db with
            completions := db.completions ++ [⟨db.nextCompletionId, user_id, code, now⟩],
            nextCompletionId := db.nextCompletionId + 1 }
    (⟨200, true, none, some (!dup), some (countFor db' user_id), some TOTAL_ACTIVITIES⟩, db')

/-- The inner join of one completion row against the activities table:
for a row of the user, look the activity up by code and emit
(a.code, a.title, c.created_at); a row whose code has no activity
produces nothing, exactly as an inner JOIN drops it. -/
def joinRow (db : DB) (c : CompletionRow) : Option (String × String × String) :=
  (db.activities.find? (fun a => a.code == c.activity_code)).map
    (fun a => (a.code, a.title, c.created_at))

/-- The unsorted rows of the progress query for one user: completions
WHERE user_id = uid joined against activities. -/
def userRows (db : DB) (uid : Nat) : List (String × String × String) :=
  (db.completions.filter (fun c => c.user_id == uid)).filterMap (joinRow db)

/-- ORDER BY c.created_at DESC on the joined rows: row a may precede row b
when the created_at of b is at most that of a (TEXT comparison, i.e. the
lexicographic String order). -/
def progressLe (a b : String × String × String) : Prop := b.2.2 ≤ a.2.2

instance : DecidableRel progressLe := fun a b => inferInstanceAs (Decidable (b.2.2 ≤ a.2.2))

instance : IsTotal (String × String × String) progressLe :=
  ⟨fun a b => (le_total b.2.2 a.2.2).elim Or.inl Or.inr⟩

instance : IsTrans (String × String × String) progressLe :=
  ⟨fun _ _ _ h1 h2 => le_trans h2 h1⟩

/-- get_progress from main.py: the COUNT(*) of the user rows in
completions, and the joined rows ORDER BY c.created_at DESC. -/
def get_progress (db : DB) (uid : Nat) : Nat × List (String × String × String) :=
  (countFor db uid, List.insertionSort progressLe (userRows db uid))

/-- Response of GET /admin/students: the 403 Forbidden page, or the table
page with its rows (name, email, completion count), the COUNT(*) of users
and TOTAL_ACTIVITIES. -/
inductive AdminResp where
  | forbidden
  | page (rows : List (String × String × Nat)) (total_users : Nat) (total : Nat)
deriving DecidableEq, Repr

/-- ORDER BY cnt DESC, u.name ASC on the admin rows: row a may precede
row b when the count of a exceeds that of b, or the counts are equal and
the name of a is at most that of b. -/
def adminLe (a b : String × String × Nat) : Prop :=
  b.2.2 < a.2.2 ∨ (a.2.2 = b.2.2 ∧ a.1 ≤ b.1)

instance : DecidableRel adminLe := fun a b =>
  inferInstanceAs (Decidable (b.2.2 < a.2.2 ∨ (a.2.2 = b.2.2 ∧ a.1 ≤ b.1)))

instance : IsTotal (String × String × Nat) adminLe := by
  constructor
  intro a b
  rcases lt_trichotomy a.2.2 b.2.2 with h | h | h
  · exact Or.inr (Or.inl h)
  · rcases le_total a.1 b.1 with hn | hn
    · exact Or.inl (Or.inr ⟨h, hn⟩)
    · exact Or.inr (Or.inr ⟨h.symm, hn⟩)
  · exact Or.inl (Or.inl h)

instance : IsTrans (String × String × Nat) adminLe := by
  constructor
  intro a b c hab hbc
  rcases hab with h1 | ⟨e1, n1⟩
  · rcases hbc with h2 | ⟨e2, n2⟩
    · exact Or.inl (h2.trans h1)
    · exact Or.inl (e2 ▸ h1)
  · rcases hbc with h2 | ⟨e2, n2⟩
    · exact Or.inl (e1 ▸ h2)
    · exact Or.inr ⟨e1.trans e2, n1.trans n2⟩

/-- The admin query rows: one row (name, email, COUNT(c.id)) per user
(LEFT JOIN counts the completion rows of each user, zero when none),
ORDER BY cnt DESC, u.name ASC. -/
def adminRows (db : DB) : List (String × String × Nat) :=
  List.insertionSort adminLe
    (db.users.map (fun u => (u.name, u.email, countFor db u.id)))

/-- GET /admin/students (main.py admin_students): compare the key query
parameter (its FastAPI default is "") against os.getenv("ADMIN_KEY", ""),
answering 403 Forbidden on mismatch, else render the table.  The
environment is the Option-valued ADMIN_KEY variable. -/
def admin_students (adminKeyEnv : Option String) (db : DB) (key : String) : AdminResp :=
  if key != adminKeyEnv.getD "" then .forbidden
  else .page (adminRows db) db.users.length TOTAL_ACTIVITIES

/-- The activity codes present after startup seeding of a fresh store. -/
def seededCodes : List String := (init_db emptyDB).activities.map (fun a => a.code)

/-- The fifty codes the specification lists, CF26-A01 through CF26-A50,
written out from its words. -/
def specCodes : List String :=
  ["CF26-A01", "CF26-A02", "CF26-A03", "CF26-A04", "CF26-A05",
   "CF26-A06", "CF26-A07", "CF26-A08", "CF26-A09", "CF26-A10",
   "CF26-A11", "CF26-A12", "CF26-A13", "CF26-A14", "CF26-A15",
   "CF26-A16", "CF26-A17", "CF26-A18", "CF26-A19", "CF26-A20",
   "CF26-A21", "CF26-A22", "CF26-A23", "CF26-A24", "CF26-A25",
   "CF26-A26", "CF26-A27", "CF26-A28", "CF26-A29", "CF26-A30",
   "CF26-A31", "CF26-A32", "CF26-A33", "CF26-A34", "CF26-A35",
   "CF26-A36", "CF26-A37", "CF26-A38", "CF26-A39", "CF26-A40",
   "CF26-A41", "CF26-A42", "CF26-A43", "CF26-A44", "CF26-A45",
   "CF26-A46", "CF26-A47", "CF26-A48", "CF26-A49", "CF26-A50"]

/-- Store states reachable from the seeded initial state through the
operations that write to the store: startup seeding, POST /register and
POST /api/scan.  The remaining routes (dashboard, progress, admin listing,
logout) only read the store or touch the session, so they relate a state
to itself and need no constructor. -/
inductive Reachable : DB → Prop where
  | init : Reachable (init_db emptyDB)
  | register_step (db : DB) (name email now : String) :
      Reachable db → Reachable (register db name email now).2
  | scan_step (db : DB) (uid : Nat) (code now : String) :
      Reachable db → Reachable (scan_api db uid code now).2

/-- The store invariant maintained by every write path: unique emails,
unique (user_id, activity_code) pairs, every completion referencing a row
of the activities table, and an activities table equal to the seeded
one. -/
def RefInv (db : DB) : Prop :=
  (db.users.map (fun u => u.email)).Nodup ∧
  (db.completions.map (fun c => (c.user_id, c.activity_code))).Nodup ∧
  (∀ c ∈ db.completions, c.activity_code ∈ db.activities.map (fun a => a.code)) ∧
  db.activities = (init_db emptyDB).activities

/-- C2: counterexample — the code accepts a valid code followed by one
trailing newline, because the dollar of re.match also matches just before
a final newline, and it accepts non-ASCII decimal digits (here the
Arabic-Indic zero and seven, U+0660 and U+0667), because \d covers all of
Unicode category Nd; the stated format (exactly CF26-A and two ASCII
digits, nothing after) rejects both strings. -/
theorem valid_qr_counterexample :
    (valid_qr "CF26-A07\n" = true ∧ qrSpecFormat "CF26-A07\n" = false) ∧
    (valid_qr "CF26-A٠٧" = true ∧ qrSpecFormat "CF26-A٠٧" = false) := by
  decide

/-- C2 (amended): valid_qr s is true iff s is exactly CF26-A followed by
two Unicode decimal digits — the \d class, category Nd, with the ASCII
digits as special case — or that followed by one single trailing newline
(the Python dollar anchor also matches just before a final newline);
every other string is rejected. -/
theorem valid_qr_iff_amended (s : String) :
    valid_qr s = true ↔
      ∃ d1 d2 : Char, isDigitNd d1 = true ∧ isDigitNd d2 = true ∧
        (s.data = ['C', 'F', '2', '6', '-', 'A', d1, d2] ∨
         s.data = ['C', 'F', '2', '6', '-', 'A', d1, d2, '\n']) := by
  obtain ⟨l⟩ := s
  constructor
  · intro h
    rcases l with _ | ⟨c1, _ | ⟨c2, _ | ⟨c3, _ | ⟨c4, _ | ⟨c5, _ | ⟨a, _ | ⟨d1, _ | ⟨d2, rest⟩⟩⟩⟩⟩⟩⟩⟩ <;>
      simp [valid_qr, reMatchA2, and_assoc] at h
    obtain ⟨rfl, rfl, rfl, rfl, rfl, rfl, h1, h2, h3⟩ := h
    refine ⟨d1, d2, h1, h2, ?_⟩
    rcases h3 with rfl | rfl
    · exact Or.inl rfl
    · exact Or.inr rfl
  · rintro ⟨d1, d2, h0, h2, h | h⟩ <;>
      simp only [String.data] at h <;> subst h <;>
      simp [valid_qr, reMatchA2, h0, h2]

/-- C9: a scan whose stripped code fails the format check is answered with
status 400 and body ok false, error "Invalid QR", and the store state is
returned unchanged — no completion row is created. -/
theorem scan_api_invalid_qr (db : DB) (uid : Nat) (code now : String)
    (h : valid_qr (pyStrip code) = false) :
    scan_api db uid code now = (⟨400, false, some "Invalid QR", none, none, none⟩, db) := by
  simp [scan_api, h]

/-- C9 witness: scanning the malformed code hello from the empty store. -/
theorem scan_api_invalid_qr_witness :
    valid_qr (pyStrip "hello") = false ∧
    scan_api emptyDB 1 "hello" "2026-01-01T00:00:00" =
      (⟨400, false, some "Invalid QR", none, none, none⟩, emptyDB) :=
  ⟨by decide, scan_api_invalid_qr emptyDB 1 "hello" "2026-01-01T00:00:00" (by decide)⟩

/-- C4: a scan whose stripped code passes the format check but matches no
activity row is answered with status 404 and body ok false, error
"Unknown activity", and the store state is returned unchanged — no
completion row is inserted. -/
theorem scan_api_unknown_activity (db : DB) (uid : Nat) (code now : String)
    (hv : valid_qr (pyStrip code) = true)
    (ha : db.activities.any (fun a => a.code == pyStrip code) = false) :
    scan_api db uid code now = (⟨404, false, some "Unknown activity", none, none, none⟩, db) := by
  simp [scan_api, hv, ha]

/-- The seeding loop never touches the users table. -/
theorem foldl_seed_users (l : List Nat) (db : DB) :
    (l.foldl seedOne db).users = db.users := by
  induction l generalizing db with
  | nil => rfl
  | cons a l ih =>
      rw [List.foldl_cons, ih]
      unfold seedOne
      split <;> rfl

/-- The seeding loop never touches the completions table. -/
theorem foldl_seed_completions (l : List Nat) (db : DB) :
    (l.foldl seedOne db).completions = db.completions := by
  induction l generalizing db with
  | nil => rfl
  | cons a l ih =>
      rw [List.foldl_cons, ih]
      unfold seedOne
      split <;> rfl

/-- The seeded initial store satisfies the invariant: its users and
completions tables are empty. -/
theorem refInv_init : RefInv (init_db emptyDB) := by
  refine ⟨?_, ?_, ?_, rfl⟩
  · rw [init_db, foldl_seed_users]; simp [emptyDB]
  · rw [init_db, foldl_seed_completions]; simp [emptyDB]
  · rw [init_db, foldl_seed_completions]; simp [emptyDB]

/-- POST /register preserves the invariant: it either reuses an existing
row or appends a user whose email the lookup just found absent. -/
theorem refInv_register (db : DB) (n e t : String) (h : RefInv db) :
    RefInv (register db n e t).2 := by
  obtain ⟨h1, h2, h3, h4⟩ := h
  rcases hfind : db.users.find? (fun u => u.email == pyLower (pyStrip e)) with _ | row
  · simp only [register, hfind]
    refine ⟨?_, h2, h3, h4⟩
    simp only [List.map_append, List.map_cons, List.map_nil]
    rw [List.nodup_append]
    refine ⟨h1, List.nodup_singleton _, ?_⟩
    intro x hx
    rw [List.find?_eq_none] at hfind
    obtain ⟨u, hu, rfl⟩ := List.mem_map.mp hx
    simp only [List.mem_singleton]
    intro hc
    exact hfind u hu (by simp [hc])
  · simp only [register, hfind]
    exact ⟨h1, h2, h3, h4⟩

/-- POST /api/scan preserves the invariant: a completion row is only
appended when its activity exists and the (user, code) pair is absent. -/
theorem refInv_scan (db : DB) (uid : Nat) (code t : String) (h : RefInv db) :
    RefInv (scan_api db uid code t).2 := by
  obtain ⟨h1, h2, h3, h4⟩ := h
  by_cases hv : valid_qr (pyStrip code)
  · by_cases ha : db.activities.any (fun a => a.code == pyStrip code)
    · by_cases hdup : db.completions.any
        (fun c => c.user_id == uid && c.activity_code == pyStrip code)
      · simp only [scan_api, hv, ha, hdup, Bool.not_true, Bool.false_eq_true, if_false,
          if_true, ite_true, ite_false]
        exact ⟨h1, h2, h3, h4⟩
      · simp only [scan_api, hv, ha, hdup, Bool.not_true, Bool.not_false, Bool.false_eq_true,
          if_false, if_true, ite_true, ite_false]
        refine ⟨h1, ?_, ?_, h4⟩
        · simp only [List.map_append, List.map_cons, List.map_nil]
          rw [List.nodup_append]
          refine ⟨h2, List.nodup_singleton _, ?_⟩
          intro x hx
          simp only [Bool.not_eq_true, List.any_eq_false] at hdup
          obtain ⟨c, hc, rfl⟩ := List.mem_map.mp hx
          simp only [List.mem_singleton]
          intro hcc
          have hne := hdup c hc
          have e1 : c.user_id = uid := congrArg Prod.fst hcc
          have e2 : c.activity_code = pyStrip code := congrArg Prod.snd hcc
          rw [e1, e2] at hne
          simp at hne
        · intro c hc
          rcases List.mem_append.mp hc with hin | hnew
          · exact h3 c hin
          · simp only [List.mem_singleton] at hnew
            subst hnew
            rw [List.any_eq_true] at ha
            obtain ⟨a, hamem, hacode⟩ := ha
            rw [List.mem_map]
            exact ⟨a, hamem, by simpa using hacode⟩
    · simp only [Bool.not_eq_true] at ha
      simp only [scan_api, hv, ha, Bool.not_true, Bool.not_false, Bool.false_eq_true,
        if_false, if_true, ite_true, ite_false]
      exact ⟨h1, h2, h3, h4⟩
  · simp only [Bool.not_eq_true] at hv
    simp only [scan_api, hv, Bool.not_true, Bool.not_false, Bool.false_eq_true,
      if_false, if_true, ite_true, ite_false]
    exact ⟨h1, h2, h3, h4⟩

/-- C5: every store state reachable from the seeded initial state through
the public operations keeps emails unique across user rows, keeps
(user_id, activity_code) unique across completion rows, and every
completion references a seeded activity code. -/
theorem reachable_invariants (db : DB) (h : Reachable db) :
    ((db.users.map (fun u => u.email)).Nodup ∧
     (db.completions.map (fun c => (c.user_id, c.activity_code))).Nodup ∧
     ∀ c ∈ db.completions, c.activity_code ∈ seededCodes) := by
  have hinv : RefInv db := by
    induction h with
    | init => exact refInv_init
    | register_step db n e t hr ih => exact refInv_register db n e t ih
    | scan_step db uid code t hr ih => exact refInv_scan db uid code t ih
  obtain ⟨h1, h2, h3, h4⟩ := hinv
  refine ⟨h1, h2, fun c hc => ?_⟩
  have := h3 c hc
  rw [h4] at this
  exact this

/-- C5 witness: the seeded initial state, reachable by construction. -/
theorem reachable_invariants_witness :
    (((init_db emptyDB).users.map (fun u => u.email)).Nodup ∧
     ((init_db emptyDB).completions.map (fun c => (c.user_id, c.activity_code))).Nodup ∧
     ∀ c ∈ (init_db emptyDB).completions, c.activity_code ∈ seededCodes) :=
  reachable_invariants (init_db emptyDB) Reachable.init

/-- A code already present in the activities table stays present after one
seeding step. -/
theorem hasCode_seedOne_mono (db : DB) (i : Nat) (c : String) (h : hasCode db c = true) :
    hasCode (seedOne db i) c = true := by
  unfold seedOne
  split
  · exact h
  · simp only [hasCode] at h ⊢
    simp [List.any_append, h]

/-- After the seeding step for number i, the code of i is present. -/
theorem hasCode_seedOne_self (db : DB) (i : Nat) :
    hasCode (seedOne db i) (codeOf i) = true := by
  unfold seedOne
  split
  next h => exact h
  next h => simp [hasCode, List.any_append]

/-- A present code stays present across a whole seeding loop. -/
theorem hasCode_foldl_mono (l : List Nat) (db : DB) (c : String) (h : hasCode db c = true) :
    hasCode (l.foldl seedOne db) c = true := by
  induction l generalizing db with
  | nil => exact h
  | cons a l ih => exact ih _ (hasCode_seedOne_mono _ _ _ h)

/-- After a seeding loop over l, the code of every number of l is
present. -/
theorem hasCode_foldl_self (l : List Nat) (db : DB) (i : Nat) (hi : i ∈ l) :
    hasCode (l.foldl seedOne db) (codeOf i) = true := by
  induction l generalizing db with
  | nil => cases hi
  | cons a l ih =>
      rcases List.mem_cons.mp hi with rfl | hi'
      · exact hasCode_foldl_mono l _ _ (hasCode_seedOne_self db i)
      · exact ih (seedOne db a) hi'

/-- ON CONFLICT (code) DO NOTHING: the seeding step for a code already
present changes nothing. -/
theorem seedOne_noop (db : DB) (i : Nat) (h : hasCode db (codeOf i) = true) :
    seedOne db i = db := by
  unfold seedOne
  simp [h]

/-- A seeding loop over numbers whose codes are all present changes
nothing. -/
theorem foldl_seed_noop (l : List Nat) (db : DB)
    (h : ∀ i ∈ l, hasCode db (codeOf i) = true) :
    l.foldl seedOne db = db := by
  induction l with
  | nil => rfl
  | cons a l ih =>
      rw [List.foldl_cons, seedOne_noop db a (h a (by simp)),
        ih (fun i hi => h i (by simp [hi]))]

set_option maxRecDepth 20000 in
/-- C8: startup seeding is idempotent — a second run of init_db from any
state reached after a run changes nothing (in particular it neither errors,
every statement being total, nor duplicates rows) — and seeding the fresh
store yields activity rows whose codes are exactly the fifty strings
CF26-A01 through CF26-A50. -/
theorem init_db_idempotent :
    (∀ db : DB, init_db (init_db db) = init_db db) ∧
    seededCodes = specCodes ∧ seededCodes.length = 50 := by
  refine ⟨?_, by decide, by decide⟩
  intro db
  unfold init_db
  exact foldl_seed_noop _ _ (fun i hi => hasCode_foldl_self _ db i hi)

/-- With no duplicate emails in the table, a successful lookup of an email
leaves exactly one row carrying it. -/
theorem filter_length_one_of_nodup (l : List UserRow) (e : String) (row : UserRow)
    (hnd : (l.map (fun u => u.email)).Nodup)
    (hfind : l.find? (fun u => u.email == e) = some row) :
    (l.filter (fun u => u.email == e)).length = 1 := by
  induction l with
  | nil => exact absurd hfind (by simp [List.find?])
  | cons a l ih =>
      by_cases h : a.email == e
      · have hfe : l.filter (fun u => u.email == e) = [] := by
          rw [List.filter_eq_nil_iff]
          intro u hu
          simp only [List.map_cons, List.nodup_cons] at hnd
          intro hc
          apply hnd.1
          have : u.email = a.email := by
            simp only [beq_iff_eq] at h hc
            rw [hc, h]
          rw [← this]
          exact List.mem_map_of_mem (fun u => u.email) hu
        simp [List.filter_cons, h, hfe]
      · rw [List.find?_cons_eq_some] at hfind
        rcases hfind with ⟨hpa, _⟩ | ⟨_, hfind⟩
        · exact absurd hpa h
        · simp only [List.map_cons, List.nodup_cons] at hnd
          simp [List.filter_cons, h, ih hnd.2 hfind]

/-- C3: registering twice with emails that agree after stripping and
lowercasing binds the session to the same user id both times, the second
registration leaves the store of the first one unchanged, and exactly one
user row carries the normalized email. -/
theorem register_twice (db : DB) (n1 e1 n2 e2 t1 t2 : String)
    (hnd : (db.users.map (fun u => u.email)).Nodup)
    (he : pyLower (pyStrip e2) = pyLower (pyStrip e1)) :
    (register (register db n1 e1 t1).2 n2 e2 t2).1 = (register db n1 e1 t1).1 ∧
    (register (register db n1 e1 t1).2 n2 e2 t2).2 = (register db n1 e1 t1).2 ∧
    ((register db n1 e1 t1).2.users.filter
        (fun u => u.email == pyLower (pyStrip e1))).length = 1 := by
  rcases hfind : db.users.find? (fun u => u.email == pyLower (pyStrip e1)) with _ | row
  · have hnone : ∀ u ∈ db.users, ¬(u.email == pyLower (pyStrip e1)) = true := by
      rw [← List.find?_eq_none]; exact hfind
    constructor
    · simp [register, he, hfind, List.find?_append]
    constructor
    · simp [register, he, hfind, List.find?_append]
    · simp [register, hfind, List.filter_append, List.filter_eq_nil_iff.mpr hnone]
  · constructor
    · simp [register, he, hfind]
    constructor
    · simp [register, he, hfind]
    · simp only [register, hfind]
      exact filter_length_one_of_nodup db.users _ row hnd hfind

/-- C3 witness: registering twice on the empty store with two spellings
of the same email. -/
theorem register_twice_witness :
    (register (register emptyDB "Ann" " Ann@X.org " "T1").2 "Ann" "ann@x.org" "T2").1 =
      (register emptyDB "Ann" " Ann@X.org " "T1").1 ∧
    (register (register emptyDB "Ann" " Ann@X.org " "T1").2 "Ann" "ann@x.org" "T2").2 =
      (register emptyDB "Ann" " Ann@X.org " "T1").2 ∧
    ((register emptyDB "Ann" " Ann@X.org " "T1").2.users.filter
        (fun u => u.email == pyLower (pyStrip " Ann@X.org "))).length = 1 :=
  register_twice emptyDB "Ann" " Ann@X.org " "Ann" "ann@x.org" "T1" "T2"
    (by decide) (by decide)

/-- C1: scanning a valid, seeded, not yet completed code twice in
sequence for one authenticated user: the first call answers ok, added
true and the previous count plus one; the second call answers ok, added
false with the same count and leaves the store of the first call
unchanged, and exactly one completion row for the (user, code) pair
exists. -/
theorem scan_api_twice (db : DB) (uid : Nat) (code t1 t2 : String)
    (ht : pyStrip code = code)
    (hv : valid_qr code = true)
    (ha : db.activities.any (fun a => a.code == code) = true)
    (hfresh : db.completions.any (fun c => c.user_id == uid && c.activity_code == code) = false) :
    (scan_api db uid code t1).1 =
      ⟨200, true, none, some true, some (countFor db uid + 1), some TOTAL_ACTIVITIES⟩ ∧
    (scan_api (scan_api db uid code t1).2 uid code t2).1 =
      ⟨200, true, none, some false, some (countFor db uid + 1), some TOTAL_ACTIVITIES⟩ ∧
    (scan_api (scan_api db uid code t1).2 uid code t2).2 = (scan_api db uid code t1).2 ∧
    ((scan_api db uid code t1).2.completions.filter
        (fun c => c.user_id == uid && c.activity_code == code)).length = 1 := by
  simp [scan_api, ht, hv, ha, hfresh, countFor, List.filter_append, List.any_append,
    List.filter_eq_nil_iff]
  rw [List.any_eq_false] at hfresh
  intro a hmem h1 h2
  have h := hfresh a hmem
  simp [h1, h2] at h

set_option maxRecDepth 20000 in
/-- C1 witness: user 1 scans CF26-A01 twice against the freshly seeded
store. -/
theorem scan_api_twice_witness :
    (scan_api (init_db emptyDB) 1 "CF26-A01" "2026-02-01T10:00:00").1 =
      ⟨200, true, none, some true, some (countFor (init_db emptyDB) 1 + 1),
        some TOTAL_ACTIVITIES⟩ ∧
    (scan_api (scan_api (init_db emptyDB) 1 "CF26-A01" "2026-02-01T10:00:00").2
        1 "CF26-A01" "2026-02-01T11:00:00").1 =
      ⟨200, true, none, some false, some (countFor (init_db emptyDB) 1 + 1),
        some TOTAL_ACTIVITIES⟩ ∧
    (scan_api (scan_api (init_db emptyDB) 1 "CF26-A01" "2026-02-01T10:00:00").2
        1 "CF26-A01" "2026-02-01T11:00:00").2 =
      (scan_api (init_db emptyDB) 1 "CF26-A01" "2026-02-01T10:00:00").2 ∧
    ((scan_api (init_db emptyDB) 1 "CF26-A01" "2026-02-01T10:00:00").2.completions.filter
        (fun c => c.user_id == 1 && c.activity_code == "CF26-A01")).length = 1 :=
  scan_api_twice (init_db emptyDB) 1 "CF26-A01" "2026-02-01T10:00:00" "2026-02-01T11:00:00"
    (by decide) (by decide) (by decide) (by decide)

set_option maxRecDepth 20000 in
/-- C4 witness: scanning CF26-A99 against the seeded store, which only
holds A01 through A50. -/
theorem scan_api_unknown_activity_witness :
    valid_qr (pyStrip "CF26-A99") = true ∧
    (init_db emptyDB).activities.any (fun a => a.code == pyStrip "CF26-A99") = false ∧
    scan_api (init_db emptyDB) 7 "CF26-A99" "2026-01-01T00:00:00" =
      (⟨404, false, some "Unknown activity", none, none, none⟩, init_db emptyDB) :=
  ⟨by decide, by decide,
    scan_api_unknown_activity (init_db emptyDB) 7 "CF26-A99" "2026-01-01T00:00:00"
      (by decide) (by decide)⟩

/-- A filterMap whose function succeeds on every element keeps the
length. -/
theorem filterMap_length_of_isSome {α β : Type} (f : α → Option β) (l : List α)
    (h : ∀ a ∈ l, (f a).isSome = true) : (l.filterMap f).length = l.length := by
  induction l with
  | nil => rfl
  | cons a l ih =>
      rw [List.filterMap_cons]
      rcases hfa : f a with _ | b
      · have := h a (List.mem_cons_self a l)
        rw [hfa] at this
        simp at this
      · simp [ih (fun x hx => h x (List.mem_cons_of_mem _ hx))]

/-- The join of a completion succeeds when its code references an
activity row. -/
theorem joinRow_isSome (db : DB) (c : CompletionRow)
    (h : c.activity_code ∈ db.activities.map (fun a => a.code)) :
    (joinRow db c).isSome = true := by
  unfold joinRow
  rcases hfind : db.activities.find? (fun a => a.code == c.activity_code) with _ | a
  · exfalso
    rw [List.find?_eq_none] at hfind
    obtain ⟨a, ha, hcode⟩ := List.mem_map.mp h
    exact hfind a ha (by simp [hcode])
  · rw [hfind]
    rfl

/-- When every join succeeds, the joined rows carry exactly the
created_at timestamps of the completions, in order. -/
theorem filterMap_joinRow_ts (db : DB) (l : List CompletionRow)
    (h : ∀ c ∈ l, (joinRow db c).isSome = true) :
    (l.filterMap (joinRow db)).map (fun r => r.2.2) = l.map (fun c => c.created_at) := by
  induction l with
  | nil => rfl
  | cons c l ih =>
      rw [List.filterMap_cons]
      rcases hfc : joinRow db c with _ | b
      · have := h c (List.mem_cons_self c l)
        rw [hfc] at this
        simp at this
      · have hts : b.2.2 = c.created_at := by
          unfold joinRow at hfc
          rcases hfind : db.activities.find? (fun a => a.code == c.activity_code) with _ | a
          · rw [hfind] at hfc; simp at hfc
          · rw [hfind] at hfc
            have hb := Option.some.inj hfc
            rw [← hb]
        simp only [List.map_cons, hts]
        rw [ih (fun x hx => h x (List.mem_cons_of_mem _ hx))]

/-- C6: for a user, get_progress returns the completion count equal to
the length of the returned list, the list holds exactly the user
completions joined with activities (as a permutation of the unsorted
join), and it is sorted by completion timestamp descending — strictly so
whenever the timestamps of the user completions are distinct, which the
microsecond ISO timestamps of distinct inserts provide. -/
theorem get_progress_spec (db : DB) (uid : Nat)
    (href : ∀ c ∈ db.completions, c.activity_code ∈ db.activities.map (fun a => a.code)) :
    (get_progress db uid).1 = (get_progress db uid).2.length ∧
    (get_progress db uid).2.Perm (userRows db uid) ∧
    List.Sorted progressLe (get_progress db uid).2 ∧
    (((db.completions.filter (fun c => c.user_id == uid)).map
        (fun c => c.created_at)).Nodup →
      List.Sorted (fun a b : String × String × String => b.2.2 < a.2.2)
        (get_progress db uid).2) := by
  have hsome : ∀ c ∈ db.completions.filter (fun c => c.user_id == uid),
      (joinRow db c).isSome = true :=
    fun c hc => joinRow_isSome db c (href c (List.mem_of_mem_filter hc))
  have hperm : (get_progress db uid).2.Perm (userRows db uid) :=
    List.perm_insertionSort progressLe _
  have hlen : (userRows db uid).length =
      (db.completions.filter (fun c => c.user_id == uid)).length := by
    unfold userRows
    exact filterMap_length_of_isSome _ _ hsome
  have hsorted : List.Sorted progressLe (get_progress db uid).2 :=
    List.sorted_insertionSort progressLe _
  refine ⟨?_, hperm, hsorted, ?_⟩
  · rw [hperm.length_eq, hlen]
    rfl
  · intro hts
    have hmapts : ((userRows db uid).map (fun r => r.2.2)).Nodup := by
      unfold userRows
      rw [filterMap_joinRow_ts db _ hsome]
      exact hts
    have hnd : (((get_progress db uid).2).map (fun r => r.2.2)).Nodup := by
      rw [(hperm.map (fun r => r.2.2)).nodup_iff]
      exact hmapts
    have hpne : ((get_progress db uid).2).Pairwise
        (fun a b : String × String × String => a.2.2 ≠ b.2.2) := by
      rw [List.Nodup, List.pairwise_map] at hnd
      exact hnd
    have := hsorted.and hpne
    exact this.imp (fun hab => lt_of_le_of_ne hab.1 (fun hc => hab.2 hc.symm))

/-- C6 witness: one user with two completions carrying distinct
timestamps. -/
theorem get_progress_spec_witness :
    (get_progress ⟨[⟨1, "Ann", "ann@x.org", "T0"⟩],
        [⟨"CF26-A01", "Activity 1"⟩, ⟨"CF26-A02", "Activity 2"⟩],
        [⟨1, 1, "CF26-A01", "2026-02-01T10:00:00"⟩, ⟨2, 1, "CF26-A02", "2026-02-01T11:00:00"⟩],
        2, 3⟩ 1).1 =
      (get_progress ⟨[⟨1, "Ann", "ann@x.org", "T0"⟩],
        [⟨"CF26-A01", "Activity 1"⟩, ⟨"CF26-A02", "Activity 2"⟩],
        [⟨1, 1, "CF26-A01", "2026-02-01T10:00:00"⟩, ⟨2, 1, "CF26-A02", "2026-02-01T11:00:00"⟩],
        2, 3⟩ 1).2.length ∧
    (get_progress ⟨[⟨1, "Ann", "ann@x.org", "T0"⟩],
        [⟨"CF26-A01", "Activity 1"⟩, ⟨"CF26-A02", "Activity 2"⟩],
        [⟨1, 1, "CF26-A01", "2026-02-01T10:00:00"⟩, ⟨2, 1, "CF26-A02", "2026-02-01T11:00:00"⟩],
        2, 3⟩ 1).2.Perm
      (userRows ⟨[⟨1, "Ann", "ann@x.org", "T0"⟩],
        [⟨"CF26-A01", "Activity 1"⟩, ⟨"CF26-A02", "Activity 2"⟩],
        [⟨1, 1, "CF26-A01", "2026-02-01T10:00:00"⟩, ⟨2, 1, "CF26-A02", "2026-02-01T11:00:00"⟩],
        2, 3⟩ 1) ∧
    List.Sorted progressLe (get_progress ⟨[⟨1, "Ann", "ann@x.org", "T0"⟩],
        [⟨"CF26-A01", "Activity 1"⟩, ⟨"CF26-A02", "Activity 2"⟩],
        [⟨1, 1, "CF26-A01", "2026-02-01T10:00:00"⟩, ⟨2, 1, "CF26-A02", "2026-02-01T11:00:00"⟩],
        2, 3⟩ 1).2 ∧
    (((((⟨[⟨1, "Ann", "ann@x.org", "T0"⟩],
        [⟨"CF26-A01", "Activity 1"⟩, ⟨"CF26-A02", "Activity 2"⟩],
        [⟨1, 1, "CF26-A01", "2026-02-01T10:00:00"⟩, ⟨2, 1, "CF26-A02", "2026-02-01T11:00:00"⟩],
        2, 3⟩ : DB)).completions.filter (fun c => c.user_id == 1)).map
        (fun c => c.created_at)).Nodup →
      List.Sorted (fun a b : String × String × String => b.2.2 < a.2.2)
        (get_progress ⟨[⟨1, "Ann", "ann@x.org", "T0"⟩],
        [⟨"CF26-A01", "Activity 1"⟩, ⟨"CF26-A02", "Activity 2"⟩],
        [⟨1, 1, "CF26-A01", "2026-02-01T10:00:00"⟩, ⟨2, 1, "CF26-A02", "2026-02-01T11:00:00"⟩],
        2, 3⟩ 1).2) :=
  get_progress_spec ⟨[⟨1, "Ann", "ann@x.org", "T0"⟩],
        [⟨"CF26-A01", "Activity 1"⟩, ⟨"CF26-A02", "Activity 2"⟩],
        [⟨1, 1, "CF26-A01", "2026-02-01T10:00:00"⟩, ⟨2, 1, "CF26-A02", "2026-02-01T11:00:00"⟩],
        2, 3⟩ 1 (by decide)

/-- C7: with the matching admin key, the admin listing renders one row
per registered user with that user completion count (a permutation of the
per-user counts), sorted by count descending with ties broken by name
ascending, and reports the user total and the fixed activity total of
50. -/
theorem admin_students_spec (env : Option String) (db : DB) (key : String)
    (h : key = env.getD "") :
    admin_students env db key = .page (adminRows db) db.users.length TOTAL_ACTIVITIES ∧
    (adminRows db).Perm (db.users.map (fun u => (u.name, u.email, countFor db u.id))) ∧
    List.Sorted adminLe (adminRows db) ∧
    TOTAL_ACTIVITIES = 50 := by
  refine ⟨?_, ?_, ?_, rfl⟩
  · simp [admin_students, h]
  · unfold adminRows
    exact List.perm_insertionSort adminLe _
  · unfold adminRows
    exact List.sorted_insertionSort adminLe _

/-- C7 witness: two users, one completion, correct key. -/
theorem admin_students_spec_witness :
    admin_students (some "sekret") ⟨[⟨1, "Bob", "bob@x.org", "T0"⟩, ⟨2, "Ann", "ann@x.org", "T0"⟩],
        [⟨"CF26-A01", "Activity 1"⟩], [⟨1, 2, "CF26-A01", "T1"⟩], 3, 2⟩ "sekret" =
      .page (adminRows ⟨[⟨1, "Bob", "bob@x.org", "T0"⟩, ⟨2, "Ann", "ann@x.org", "T0"⟩],
        [⟨"CF26-A01", "Activity 1"⟩], [⟨1, 2, "CF26-A01", "T1"⟩], 3, 2⟩)
        (⟨[⟨1, "Bob", "bob@x.org", "T0"⟩, ⟨2, "Ann", "ann@x.org", "T0"⟩],
        [⟨"CF26-A01", "Activity 1"⟩], [⟨1, 2, "CF26-A01", "T1"⟩], 3, 2⟩ : DB).users.length
        TOTAL_ACTIVITIES ∧
    (adminRows ⟨[⟨1, "Bob", "bob@x.org", "T0"⟩, ⟨2, "Ann", "ann@x.org", "T0"⟩],
        [⟨"CF26-A01", "Activity 1"⟩], [⟨1, 2, "CF26-A01", "T1"⟩], 3, 2⟩).Perm
      ((⟨[⟨1, "Bob", "bob@x.org", "T0"⟩, ⟨2, "Ann", "ann@x.org", "T0"⟩],
        [⟨"CF26-A01", "Activity 1"⟩], [⟨1, 2, "CF26-A01", "T1"⟩], 3, 2⟩ : DB).users.map
        (fun u => (u.name, u.email,
          countFor ⟨[⟨1, "Bob", "bob@x.org", "T0"⟩, ⟨2, "Ann", "ann@x.org", "T0"⟩],
            [⟨"CF26-A01", "Activity 1"⟩], [⟨1, 2, "CF26-A01", "T1"⟩], 3, 2⟩ u.id))) ∧
    List.Sorted adminLe (adminRows ⟨[⟨1, "Bob", "bob@x.org", "T0"⟩, ⟨2, "Ann", "ann@x.org", "T0"⟩],
        [⟨"CF26-A01", "Activity 1"⟩], [⟨1, 2, "CF26-A01", "T1"⟩], 3, 2⟩) ∧
    TOTAL_ACTIVITIES = 50 :=
  admin_students_spec (some "sekret") _ "sekret" rfl

/-- C10: with ADMIN_KEY unset, the gate compares the key against the
default empty string, so a request without a key parameter (FastAPI
default "") is served the listing page rather than 403 Forbidden. -/
theorem admin_students_no_key (db : DB) :
    admin_students none db "" = .page (adminRows db) db.users.length TOTAL_ACTIVITIES := by
  simp [admin_students]
